import Mathlib

/-!
Verification of the core-affinity module
(`storage-proofs-porep/src/stacked/vanilla/cores.rs`).

The module partitions visible CPU cores into named disjoint groups
(`core_groups`), offers a non-blocking mutual-exclusion checkout over those
groups (`checkout_core_group`), and pins the calling thread to one core with
scoped restoration of the prior binding (`bind_core` / `Cleanup`).

This file shallowly embeds those functions: the static plan table becomes a
pure Lean function, the hwloc topology collaborator becomes an explicit state
record threaded through `bind_core` and the cleanup drop, and the mutex pool
becomes (a) a static lock-state scan for the sequential scan semantics and
(b) a small labelled transition system for the concurrency claims.
-/

namespace Cores

/-- `CoreIndex` is a simple wrapper type for indexes into the set of visible
cores, mirroring the Rust `struct CoreIndex(usize)`. -/
structure CoreIndex where
  val : Nat
  deriving DecidableEq, Repr

/-- The hand-curated DELL7525 plan entry: the 28 four-core groups listed in
the `"DELL7525"` arm of the `match` in `core_groups`, in source order.  The
four GPU-adjacent blocks (16–19, 32–35, 80–83, 96–99) appear in the source
only as commented-out lines and are absent here, exactly as in the code. -/
def dell7525_groups : List (List CoreIndex) :=
  [ [⟨0⟩, ⟨1⟩, ⟨2⟩, ⟨3⟩],
    [⟨4⟩, ⟨5⟩, ⟨6⟩, ⟨7⟩],
    [⟨8⟩, ⟨9⟩, ⟨10⟩, ⟨11⟩],
    [⟨12⟩, ⟨13⟩, ⟨14⟩, ⟨15⟩],
    [⟨20⟩, ⟨21⟩, ⟨22⟩, ⟨23⟩],
    [⟨24⟩, ⟨25⟩, ⟨26⟩, ⟨27⟩],
    [⟨28⟩, ⟨29⟩, ⟨30⟩, ⟨31⟩],
    [⟨36⟩, ⟨37⟩, ⟨38⟩, ⟨39⟩],
    [⟨40⟩, ⟨41⟩, ⟨42⟩, ⟨43⟩],
    [⟨44⟩, ⟨45⟩, ⟨46⟩, ⟨47⟩],
    [⟨48⟩, ⟨49⟩, ⟨50⟩, ⟨51⟩],
    [⟨52⟩, ⟨53⟩, ⟨54⟩, ⟨55⟩],
    [⟨56⟩, ⟨57⟩, ⟨58⟩, ⟨59⟩],
    [⟨60⟩, ⟨61⟩, ⟨62⟩, ⟨63⟩],
    [⟨64⟩, ⟨65⟩, ⟨66⟩, ⟨67⟩],
    [⟨68⟩, ⟨69⟩, ⟨70⟩, ⟨71⟩],
    [⟨72⟩, ⟨73⟩, ⟨74⟩, ⟨75⟩],
    [⟨76⟩, ⟨77⟩, ⟨78⟩, ⟨79⟩],
    [⟨84⟩, ⟨85⟩, ⟨86⟩, ⟨87⟩],
    [⟨88⟩, ⟨89⟩, ⟨90⟩, ⟨91⟩],
    [⟨92⟩, ⟨93⟩, ⟨94⟩, ⟨95⟩],
    [⟨100⟩, ⟨101⟩, ⟨102⟩, ⟨103⟩],
    [⟨104⟩, ⟨105⟩, ⟨106⟩, ⟨107⟩],
    [⟨108⟩, ⟨109⟩, ⟨110⟩, ⟨111⟩],
    [⟨112⟩, ⟨113⟩, ⟨114⟩, ⟨115⟩],
    [⟨116⟩, ⟨117⟩, ⟨118⟩, ⟨119⟩],
    [⟨120⟩, ⟨121⟩, ⟨122⟩, ⟨123⟩],
    [⟨124⟩, ⟨125⟩, ⟨126⟩, ⟨127⟩] ]

/-- The fallback arm `_ => vec![vec![CoreIndex(0),...,CoreIndex(3)]]`. -/
def default_group : List CoreIndex := [⟨0⟩, ⟨1⟩, ⟨2⟩, ⟨3⟩]

/-- Embedding of `core_groups(core_plan: String)`.  The Rust function
matches the plan string exactly against `"DELL7525"`, wraps each group of the
chosen table in a `Mutex`, and returns `Some` of the vector; the mutex
wrappers are lock state, modelled separately, so here the function returns
the group lists themselves.  Every reachable path of the source returns
`Some`; the `Option` in the return type is kept from the signature. -/
def core_groups (core_plan : String) : Option (List (List CoreIndex)) :=
  let custom_groups :=
    if core_plan = "DELL7525" then dell7525_groups else [default_group]
  some custom_groups

/-- The four reserved GPU-adjacent blocks excluded from the DELL7525 plan. -/
def reservedIndices : List Nat :=
  [16, 17, 18, 19, 32, 33, 34, 35, 80, 81, 82, 83, 96, 97, 98, 99]

/-- Two groups are disjoint when no core index lies in both. -/
def groupsDisjoint (a b : List CoreIndex) : Prop :=
  ∀ x, x ∈ a → x ∉ b

instance (a b : List CoreIndex) : Decidable (groupsDisjoint a b) := by
  unfold groupsDisjoint
  exact List.decidableBAll _ a

/-- `C1`: for the plan name "DELL7525", `core_groups` returns exactly 28
groups, each of exactly 4 core indexes, and joining the groups in order
enumerates exactly the indices 0–127 with the four reserved GPU-adjacent
blocks removed (so, in particular, the union of the groups is exactly that
index set). -/
theorem dell7525_plan_shape :
    ∃ gs, core_groups "DELL7525" = some gs ∧
      gs.length = 28 ∧
      (∀ g ∈ gs, g.length = 4) ∧
      gs.flatten.map CoreIndex.val =
        (List.range 128).filter (fun i => !(reservedIndices.contains i)) := by
  refine ⟨dell7525_groups, rfl, ?_, ?_, ?_⟩ <;> decide

/-- `C2`: for every plan-name string other than "DELL7525", `core_groups`
returns exactly one group, and it is `[0, 1, 2, 3]`. -/
theorem core_groups_unrecognized (s : String) (h : s ≠ "DELL7525") :
    core_groups s = some [[⟨0⟩, ⟨1⟩, ⟨2⟩, ⟨3⟩]] := by
  simp [core_groups, h, default_group]

/-- Witness for `C2` at the concrete unrecognized plan name "PLAN_X"
(the name used by the module's own `test_cores` test). -/
theorem core_groups_unrecognized_witness :
    core_groups "PLAN_X" = some [[⟨0⟩, ⟨1⟩, ⟨2⟩, ⟨3⟩]] :=
  core_groups_unrecognized "PLAN_X" (by decide)

/-- `C3`: for every plan-name string, any two distinct groups returned by
`core_groups` are disjoint in their core indexes. -/
theorem core_groups_pairwise_disjoint (s : String) (gs : List (List CoreIndex))
    (h : core_groups s = some gs) : gs.Pairwise groupsDisjoint := by
  by_cases hs : s = "DELL7525"
  · simp only [core_groups, hs, if_pos rfl, Option.some.injEq] at h
    subst h
    decide
  · simp only [core_groups, if_neg hs, Option.some.injEq] at h
    subst h
    decide

/-- Witness for `C3` at the concrete plan name "DELL7525". -/
theorem core_groups_pairwise_disjoint_witness :
    dell7525_groups.Pairwise groupsDisjoint :=
  core_groups_pairwise_disjoint "DELL7525" dell7525_groups rfl

/-- `C10`: for every plan-name string, `core_groups` returns `some` of a
non-empty list of groups; it never returns `none`. -/
theorem core_groups_always_some_nonempty (s : String) :
    ∃ gs, core_groups s = some gs ∧ gs ≠ [] := by
  by_cases hs : s = "DELL7525"
  · exact ⟨dell7525_groups, by simp [core_groups, hs], by decide⟩
  · exact ⟨[default_group], by simp [core_groups, hs], by decide⟩

/-! ## Topology state and the bind/restore protocol

`bind_core` and `Cleanup::drop` act on the hwloc `Topology` collaborator.
The embedding makes the collaborator's state explicit: the enumerated cores
with their allowed cpusets, the calling thread's current CPU and memory
binding, and a trace of every `set_cpubind_for_thread` / `set_membind`
invocation (a call is recorded even when it fails, since being *invoked* is
what the frame claims are about).  Whether the individual hwloc calls
succeed is outside the module's control, so it is a behaviour parameter. -/

/-- A cpuset: the logical-processor ids of an hwloc `Bitmap`, in order. -/
abbrev Bitmap := List Nat

/-- `Bitmap::singlify`: keep only the first logical processor of the set. -/
def singlify (b : Bitmap) : Bitmap := b.take 1

/-- The memory-binding policy argument of `set_membind`:
`MEMBIND_DEFAULT` or `MEMBIND_BIND`. -/
inductive MembindPolicy where
  | mdefault
  | mbind
  deriving DecidableEq, Repr

/-- One recorded invocation of a topology binding call. -/
inductive TopoCall where
  | setCpu (b : Bitmap)
  | setMem (b : Bitmap) (p : MembindPolicy)
  deriving DecidableEq, Repr

/-- The state of the topology collaborator, as seen by the calling thread:
the enumerated cores (each with its allowed cpuset, `none` when
`allowed_cpuset()` returns nothing), the thread's current CPU binding, its
current memory binding and policy, and the trace of binding calls made. -/
structure Topology where
  cores : List (Option Bitmap)
  cpubind : Bitmap
  membind : Bitmap
  membindPolicy : MembindPolicy
  trace : List TopoCall
  deriving DecidableEq, Repr

/-- Which of the fallible hwloc calls succeed during a run: the snapshot
read `get_cpubind_for_thread` (best-effort, may yield nothing), and the two
setters. -/
structure TopoBehavior where
  getCpubindOk : Bool
  setCpubindOk : Bool
  setMembindOk : Bool
  deriving DecidableEq, Repr

/-- `topo.objects_with_type(&ObjectType::Core)`: the enumerated cores. -/
def objects_with_type_core (topo : Topology) : List (Option Bitmap) :=
  topo.cores

/-- Embedding of `get_core_by_index`: returns the core at `index` when
`index` is below the number of enumerated cores, an error otherwise.  (The
source's third arm, for a failed enumeration query, has no counterpart:
the modelled query always answers.) -/
def get_core_by_index (topo : Topology) (index : CoreIndex) :
    Except String (Option Bitmap) :=
  let idx := index.val
  let all_cores := objects_with_type_core topo
  if h : idx < all_cores.length then .ok (all_cores.get ⟨idx, h⟩)
  else .error "idx out of range"

/-- `set_cpubind_for_thread`: always recorded in the trace; updates the CPU
binding when the call succeeds, returns an error and leaves the binding
unchanged when it fails. -/
def set_cpubind_for_thread (beh : TopoBehavior) (topo : Topology)
    (b : Bitmap) : Except String Unit × Topology :=
  let topo' := { topo with trace := topo.trace ++ [TopoCall.setCpu b] }
  if beh.setCpubindOk then (.ok (), { topo' with cpubind := b })
  else (.error "failed to bind CPU", topo')

/-- `set_membind`: always recorded in the trace; updates the memory binding
and policy when the call succeeds. -/
def set_membind (beh : TopoBehavior) (topo : Topology) (b : Bitmap)
    (p : MembindPolicy) : Except String Unit × Topology :=
  let topo' := { topo with trace := topo.trace ++ [TopoCall.setMem b p] }
  if beh.setMembindOk then
    (.ok (), { topo' with membind := b, membindPolicy := p })
  else (.error "failed to bind memory", topo')

/-- `get_cpubind_for_thread`: best-effort snapshot of the thread's current
CPU binding; yields nothing when the query fails. -/
def get_cpubind_for_thread (beh : TopoBehavior) (topo : Topology) :
    Option Bitmap :=
  if beh.getCpubindOk then some topo.cpubind else none

/-- The `Cleanup` token returned by a successful `bind_core`: the thread id
and the prior-binding snapshot (absent when the snapshot read failed). -/
structure Cleanup where
  tid : Nat
  prior_state : Option Bitmap
  deriving DecidableEq, Repr

/-- Embedding of `bind_core`.  Resolves the core, reads its allowed cpuset,
singlifies it, snapshots the current CPU binding, applies the CPU binding
(a failure is only logged), applies the memory binding with `MEMBIND_BIND`
(result discarded), and returns the `Cleanup` token wrapping the snapshot.
The returned `Topology` is the collaborator state after the call. -/
def bind_core (beh : TopoBehavior) (topo : Topology) (tid : Nat)
    (core_index : CoreIndex) : Except String Cleanup × Topology :=
  match get_core_by_index topo core_index with
  | .error _ => (.error "failed to get core at index", topo)
  | .ok none => (.error "no allowed cpuset for core at index", topo)
  | .ok (some cpuset) =>
    let bind_to := singlify cpuset
    let before := get_cpubind_for_thread beh topo
    let (_result, topo1) := set_cpubind_for_thread beh topo bind_to
    let (_, topo2) := set_membind beh topo1 bind_to MembindPolicy.mbind
    (.ok { tid := tid, prior_state := before }, topo2)

/-- Embedding of `impl Drop for Cleanup`: when the token carries a prior
snapshot, restore it as the CPU binding and as the memory binding (with
`MEMBIND_DEFAULT`), discarding both results; otherwise do nothing. -/
def cleanup_drop (beh : TopoBehavior) (topo : Topology) (c : Cleanup) :
    Topology :=
  match c.prior_state with
  | none => topo
  | some prior =>
    let (_, topo1) := set_cpubind_for_thread beh topo prior
    let (_, topo2) := set_membind beh topo1 prior MembindPolicy.mdefault
    topo2

/-- `C4`: when the core index is at or beyond the number of enumerated
cores, `bind_core` returns an error and the topology state — its bindings
and its call trace — is exactly the state before the call: neither
`set_cpubind_for_thread` nor `set_membind` was invoked. -/
theorem bind_core_out_of_range (beh : TopoBehavior) (topo : Topology)
    (tid : Nat) (core_index : CoreIndex)
    (h : topo.cores.length ≤ core_index.val) :
    bind_core beh topo tid core_index =
      (.error "failed to get core at index", topo) := by
  have hlt : ¬ core_index.val < (objects_with_type_core topo).length := by
    simp [objects_with_type_core]
    omega
  simp [bind_core, get_core_by_index, hlt]

/-- Witness for `C4`: binding core 1 on a one-core topology fails and
leaves the state untouched. -/
theorem bind_core_out_of_range_witness :
    bind_core ⟨true, true, true⟩
        ⟨[some [0, 1]], [0], [0], MembindPolicy.mdefault, []⟩ 7 ⟨1⟩ =
      (.error "failed to get core at index",
        ⟨[some [0, 1]], [0], [0], MembindPolicy.mdefault, []⟩) :=
  bind_core_out_of_range ⟨true, true, true⟩
    ⟨[some [0, 1]], [0], [0], MembindPolicy.mdefault, []⟩ 7 ⟨1⟩ (by decide)

/-- `C5`: when the core resolves and exposes an allowed cpuset, `bind_core`
returns `Ok` with a `Cleanup` wrapping the captured snapshot under *every*
behaviour of the fallible calls — in particular when the CPU-bind call
fails — and the memory-bind call is still invoked right after the CPU-bind
call, as the trace shows.  Neither apply failure is ever propagated. -/
theorem bind_core_soft_failure (beh : TopoBehavior) (topo : Topology)
    (tid : Nat) (core_index : CoreIndex) (cpuset : Bitmap)
    (h : get_core_by_index topo core_index = .ok (some cpuset)) :
    (bind_core beh topo tid core_index).1 =
      .ok { tid := tid, prior_state := get_cpubind_for_thread beh topo } ∧
    (bind_core beh topo tid core_index).2.trace =
      topo.trace ++ [TopoCall.setCpu (singlify cpuset),
        TopoCall.setMem (singlify cpuset) MembindPolicy.mbind] := by
  unfold bind_core
  rw [h]
  unfold set_cpubind_for_thread set_membind
  cases hc : beh.setCpubindOk <;> cases hm : beh.setMembindOk <;> simp

/-- Witness for `C5`: on a one-core topology where the CPU-bind call fails,
`bind_core` still returns `Ok` with the snapshot, and the trace records the
CPU-bind attempt followed by the memory-bind attempt. -/
theorem bind_core_soft_failure_witness :
    (bind_core ⟨true, false, true⟩
        ⟨[some [4, 5]], [9], [9], MembindPolicy.mdefault, []⟩ 7 ⟨0⟩).1 =
      .ok { tid := 7, prior_state := some [9] } ∧
    (bind_core ⟨true, false, true⟩
        ⟨[some [4, 5]], [9], [9], MembindPolicy.mdefault, []⟩ 7 ⟨0⟩).2.trace =
      [] ++ [TopoCall.setCpu [4], TopoCall.setMem [4] MembindPolicy.mbind] :=
  bind_core_soft_failure ⟨true, false, true⟩
    ⟨[some [4, 5]], [9], [9], MembindPolicy.mdefault, []⟩ 7 ⟨0⟩ [4, 5] rfl

/-- `C7`: dropping a `Cleanup` whose prior snapshot is absent performs no
topology call at all — the whole state, trace included, is unchanged — and
raises no error (the drop has no error outcome). -/
theorem cleanup_drop_no_snapshot (beh : TopoBehavior) (topo : Topology)
    (tid : Nat) :
    cleanup_drop beh topo { tid := tid, prior_state := none } = topo :=
  rfl

/-- Behaviour in which every fallible hwloc call succeeds. -/
def behOk : TopoBehavior := ⟨true, true, true⟩

/-- A one-core topology whose thread starts CPU-bound to `[0]` but
memory-bound to `[5]` — a state in which the prior CPU and memory bindings
differ. -/
def exTopo : Topology := ⟨[some [2, 3]], [0], [5], MembindPolicy.mdefault, []⟩

/-- Counterexample to `C6` as stated: on `exTopo`, `bind_core` succeeds
(every hwloc call succeeds, the snapshot is captured), yet after the drop
the memory binding is `[0]` — the prior *CPU* snapshot — not the `[5]` that
was the memory binding immediately before the call, so the memory binding
is not bit-for-bit restored. -/
theorem cleanup_restore_counterexample :
    (bind_core behOk exTopo 0 ⟨0⟩).1 =
      .ok { tid := 0, prior_state := some [0] } ∧
    (cleanup_drop behOk (bind_core behOk exTopo 0 ⟨0⟩).2
        { tid := 0, prior_state := some [0] }).membind = [0] ∧
    exTopo.membind = [5] :=
  ⟨rfl, rfl, rfl⟩

/-- `C6` (amended): after a successful `bind_core` during which the
prior-binding snapshot was captured and the binding calls succeed, ending
the scope restores the thread's CPU binding bit-for-bit to the prior CPU
binding, and sets the memory binding to that same prior CPU-binding
snapshot — not to the prior memory binding, which is never captured. -/
theorem cleanup_restores_cpu_snapshot (beh : TopoBehavior) (topo : Topology)
    (tid : Nat) (core_index : CoreIndex) (cpuset : Bitmap) (c : Cleanup)
    (hget : beh.getCpubindOk = true) (hset : beh.setCpubindOk = true)
    (hmem : beh.setMembindOk = true)
    (h : get_core_by_index topo core_index = .ok (some cpuset))
    (hc : (bind_core beh topo tid core_index).1 = .ok c) :
    (cleanup_drop beh (bind_core beh topo tid core_index).2 c).cpubind =
      topo.cpubind ∧
    (cleanup_drop beh (bind_core beh topo tid core_index).2 c).membind =
      topo.cpubind := by
  unfold bind_core set_cpubind_for_thread set_membind at hc ⊢
  rw [h] at hc ⊢
  simp only [hset, hmem, get_cpubind_for_thread, hget, if_true, if_pos] at hc ⊢
  have hc' : c = { tid := tid, prior_state := some topo.cpubind } := by
    simpa using hc.symm
  subst hc'
  simp [cleanup_drop, set_cpubind_for_thread, set_membind, hset, hmem]

/-- Witness for the amended `C6` on `exTopo`: CPU binding back to `[0]`,
memory binding set to the same `[0]` snapshot. -/
theorem cleanup_restores_cpu_snapshot_witness :
    (cleanup_drop behOk (bind_core behOk exTopo 3 ⟨0⟩).2
        { tid := 3, prior_state := some [0] }).cpubind = exTopo.cpubind ∧
    (cleanup_drop behOk (bind_core behOk exTopo 3 ⟨0⟩).2
        { tid := 3, prior_state := some [0] }).membind = exTopo.cpubind :=
  cleanup_restores_cpu_snapshot behOk exTopo 3 ⟨0⟩ [2, 3]
    { tid := 3, prior_state := some [0] } rfl rfl rfl rfl rfl

/-! ## Non-blocking checkout

`checkout_core_group` walks `CORE_GROUPS` in order and `try_lock`s each
group: an already-held mutex answers `Err` immediately, a free one yields
the guard.  At any instant the scan therefore depends only on which groups
are currently held, modelled as a `Bool` (`true` = held) paired with each
group.  The returned guard is modelled as the group's position and
contents. -/

/-- The `for (i, group) in groups.iter().enumerate()` loop body: `try_lock`
on a held group fails and the scan continues with the next index; the first
free group is returned at once. -/
def scan_groups : List (Bool × List CoreIndex) → Nat →
    Option (Nat × List CoreIndex)
  | [], _ => none
  | (held, g) :: rest, i =>
    if held then scan_groups rest (i + 1) else some (i, g)

/-- Embedding of `checkout_core_group`: `none` when no pool is configured,
otherwise the scan from index 0. -/
def checkout_core_group (pool : Option (List (Bool × List CoreIndex))) :
    Option (Nat × List CoreIndex) :=
  match pool with
  | some groups => scan_groups groups 0
  | none => none

theorem scan_groups_all_held (groups : List (Bool × List CoreIndex))
    (h : ∀ p ∈ groups, p.1 = true) (i : Nat) :
    scan_groups groups i = none := by
  induction groups generalizing i with
  | nil => rfl
  | cons p rest ih =>
    obtain ⟨held, g⟩ := p
    have : held = true := h _ (List.mem_cons_self _ _)
    subst this
    simpa [scan_groups] using ih (fun q hq => h q (List.mem_cons_of_mem _ hq)) (i + 1)

theorem scan_groups_first_free (pre : List (Bool × List CoreIndex))
    (g : List CoreIndex) (post : List (Bool × List CoreIndex))
    (h : ∀ p ∈ pre, p.1 = true) (i : Nat) :
    scan_groups (pre ++ (false, g) :: post) i = some (i + pre.length, g) := by
  induction pre generalizing i with
  | nil => simp [scan_groups]
  | cons p rest ih =>
    obtain ⟨held, q⟩ := p
    have : held = true := h _ (List.mem_cons_self _ _)
    subst this
    have hih := ih (fun r hr => h r (List.mem_cons_of_mem _ hr)) (i + 1)
    simp only [List.cons_append, scan_groups, if_pos rfl, List.append_eq,
      hih, List.length_cons, if_true]
    exact congrArg (fun n => some (n, g)) (by omega)

/-- `C8`: the checkout scans groups in plan order with a non-blocking
try-acquire.  With no pool configured it returns `none`; when every group
is held it returns `none` without waiting; and whenever the groups split as
`pre ++ free :: post` with all of `pre` held, it returns the first free
group — position and contents — whatever the state of the later groups,
which are never tried. -/
theorem checkout_core_group_scan :
    checkout_core_group none = none ∧
    (∀ groups : List (Bool × List CoreIndex), (∀ p ∈ groups, p.1 = true) →
      checkout_core_group (some groups) = none) ∧
    (∀ (pre : List (Bool × List CoreIndex)) (g : List CoreIndex)
      (post : List (Bool × List CoreIndex)), (∀ p ∈ pre, p.1 = true) →
      checkout_core_group (some (pre ++ (false, g) :: post)) =
        some (pre.length, g)) := by
  refine ⟨rfl, ?_, ?_⟩
  · intro groups h
    exact scan_groups_all_held groups h 0
  · intro pre g post h
    simpa using scan_groups_first_free pre g post h 0

/-- Witness for `C8`: with group 0 held, group 1 free and group 2 free, the
checkout returns group 1; with both groups of a two-group pool held it
returns `none`. -/
theorem checkout_core_group_scan_witness :
    checkout_core_group (some [(true, [⟨0⟩]), (true, [⟨1⟩])]) = none ∧
    checkout_core_group
        (some ([(true, [⟨0⟩])] ++ (false, [⟨1⟩]) :: [(false, [⟨2⟩])])) =
      some (1, [⟨1⟩]) :=
  ⟨checkout_core_group_scan.2.1 [(true, [⟨0⟩]), (true, [⟨1⟩])] (by decide),
    checkout_core_group_scan.2.2 [(true, [⟨0⟩])] [⟨1⟩] [(false, [⟨2⟩])]
      (by decide)⟩

/-! ## Concurrency of checkout

The mutual-exclusion claims are about interleaved executions of
`checkout_core_group` in several threads.  The scan loop is embedded as a
labelled transition system: each thread sits at a program point — scanning
group `i`, holding group `i`'s guard (after a successful `try_lock`),
having returned `none`, or having released its guard — and a `try_lock` is
one atomic step that observes and updates the lock word of one group. -/

/-- Program point of one thread running the checkout scan. -/
inductive ThreadPc where
  | scanning (i : Nat)
  | holding (i : Nat)
  | failed
  | released
  deriving DecidableEq, Repr

/-- Global state of the pool: the number of groups, which group locks are
currently taken, and each thread's program point. -/
structure PoolSys where
  n : Nat
  locked : Nat → Bool
  pc : Nat → ThreadPc

/-- One atomic step of thread `t` in the scan loop: `try_lock` on a held
group fails and the scan moves on; `try_lock` on a free group atomically
takes the lock and the thread returns holding that group's guard; a scan
past the last group returns `none`; dropping a held guard frees its lock. -/
inductive Step (t : Nat) : PoolSys → PoolSys → Prop where
  | scanHeld (s : PoolSys) (i : Nat) :
      s.pc t = .scanning i → i < s.n → s.locked i = true →
      Step t s ⟨s.n, s.locked,
        fun u => if u = t then .scanning (i + 1) else s.pc u⟩
  | scanFree (s : PoolSys) (i : Nat) :
      s.pc t = .scanning i → i < s.n → s.locked i = false →
      Step t s ⟨s.n, fun m => if m = i then true else s.locked m,
        fun u => if u = t then .holding i else s.pc u⟩
  | scanEnd (s : PoolSys) (i : Nat) :
      s.pc t = .scanning i → s.n ≤ i →
      Step t s ⟨s.n, s.locked, fun u => if u = t then .failed else s.pc u⟩
  | release (s : PoolSys) (i : Nat) :
      s.pc t = .holding i →
      Step t s ⟨s.n, fun m => if m = i then false else s.locked m,
        fun u => if u = t then .released else s.pc u⟩

/-- A step by some thread. -/
def AnyStep (s s' : PoolSys) : Prop := ∃ t, Step t s s'

/-- Initial state: no lock taken, every thread about to scan group 0. -/
def initialPool (s : PoolSys) : Prop :=
  (∀ i, s.locked i = false) ∧ (∀ t, s.pc t = .scanning 0)

/-- Pool invariant: a held guard's lock is taken, and each group has at
most one holder. -/
def PoolInv (s : PoolSys) : Prop :=
  (∀ t i, s.pc t = .holding i → s.locked i = true) ∧
  (∀ t u i, s.pc t = .holding i → s.pc u = .holding i → t = u)

theorem poolInv_initial (s : PoolSys) (h : initialPool s) : PoolInv s := by
  refine ⟨fun t i ht => ?_, fun t u i ht hu => ?_⟩
  · rw [h.2 t] at ht; cases ht
  · rw [h.2 t] at ht; cases ht

theorem poolInv_step (t : Nat) (s s' : PoolSys) (hinv : PoolInv s)
    (hs : Step t s s') : PoolInv s' := by
  obtain ⟨h1, h2⟩ := hinv
  cases hs with
  | scanHeld i hpc hi hl =>
    refine ⟨fun u j hu => ?_, fun u v j hu hv => ?_⟩
    · dsimp at hu
      by_cases hut : u = t
      · simp [hut] at hu
      · rw [if_neg hut] at hu
        exact h1 u j hu
    · dsimp at hu hv
      by_cases hut : u = t <;> by_cases hvt : v = t
      · rw [hut, hvt]
      · simp [hut] at hu
      · simp [hvt] at hv
      · rw [if_neg hut] at hu
        rw [if_neg hvt] at hv
        exact h2 u v j hu hv
  | scanFree i hpc hi hl =>
    refine ⟨fun u j hu => ?_, fun u v j hu hv => ?_⟩
    · dsimp at hu ⊢
      by_cases hut : u = t
      · rw [if_pos hut] at hu
        cases hu
        rw [if_pos rfl]
      · rw [if_neg hut] at hu
        by_cases hji : j = i
        · rw [if_pos hji]
        · rw [if_neg hji]
          exact h1 u j hu
    · dsimp at hu hv
      by_cases hut : u = t <;> by_cases hvt : v = t
      · rw [hut, hvt]
      · rw [if_pos hut] at hu
        rw [if_neg hvt] at hv
        cases hu
        have := h1 v i hv
        rw [this] at hl
        cases hl
      · rw [if_neg hut] at hu
        rw [if_pos hvt] at hv
        cases hv
        have := h1 u i hu
        rw [this] at hl
        cases hl
      · rw [if_neg hut] at hu
        rw [if_neg hvt] at hv
        exact h2 u v j hu hv
  | scanEnd i hpc hi =>
    refine ⟨fun u j hu => ?_, fun u v j hu hv => ?_⟩
    · dsimp at hu
      by_cases hut : u = t
      · simp [hut] at hu
      · rw [if_neg hut] at hu
        exact h1 u j hu
    · dsimp at hu hv
      by_cases hut : u = t <;> by_cases hvt : v = t
      · rw [hut, hvt]
      · simp [hut] at hu
      · simp [hvt] at hv
      · rw [if_neg hut] at hu
        rw [if_neg hvt] at hv
        exact h2 u v j hu hv
  | release i hpc =>
    refine ⟨fun u j hu => ?_, fun u v j hu hv => ?_⟩
    · dsimp at hu ⊢
      by_cases hut : u = t
      · simp [hut] at hu
      · rw [if_neg hut] at hu
        by_cases hji : j = i
        · subst hji
          exact absurd (h2 u t j hu hpc) hut
        · rw [if_neg hji]
          exact h1 u j hu
    · dsimp at hu hv
      by_cases hut : u = t <;> by_cases hvt : v = t
      · rw [hut, hvt]
      · simp [hut] at hu
      · simp [hvt] at hv
      · rw [if_neg hut] at hu
        rw [if_neg hvt] at hv
        exact h2 u v j hu hv

/-- Interleaved executions of the scan from a given start state. -/
def ReachablePool (s0 s : PoolSys) : Prop :=
  Relation.ReflTransGen AnyStep s0 s

theorem poolInv_reachable (s0 s : PoolSys) (h0 : initialPool s0)
    (h : ReachablePool s0 s) : PoolInv s := by
  induction h with
  | refl => exact poolInv_initial s0 h0
  | tail _hab hbc ih =>
    obtain ⟨t, hbc⟩ := hbc
    exact poolInv_step t _ _ ih hbc

/-- Every group lock is taken: every guard of the pool is held. -/
def allLocked (s : PoolSys) : Prop := ∀ i, i < s.n → s.locked i = true

/-- A step by a thread that is not currently holding a guard — the steps
possible "while all N guards are held" by the other threads. -/
def HoldStep (s s' : PoolSys) : Prop :=
  ∃ t, Step t s s' ∧ ∀ i, s.pc t ≠ .holding i

theorem holdStep_blocked (t : Nat) (s s' : PoolSys) (hl : allLocked s)
    (hpc : ∃ i, s.pc t = .scanning i ∨ s.pc t = .failed)
    (hsteps : Relation.ReflTransGen HoldStep s s') :
    allLocked s' ∧ ∃ i, s'.pc t = .scanning i ∨ s'.pc t = .failed := by
  induction hsteps with
  | refl => exact ⟨hl, hpc⟩
  | tail _hab hbc ih =>
    obtain ⟨hlb, hpcb⟩ := ih
    obtain ⟨u, hstep, hnohold⟩ := hbc
    cases hstep with
    | scanHeld i hpci hi hli =>
      refine ⟨hlb, ?_⟩
      dsimp
      by_cases hut : t = u
      · exact ⟨i + 1, Or.inl (by rw [if_pos hut])⟩
      · obtain ⟨j, hj⟩ := hpcb
        exact ⟨j, by rwa [if_neg hut]⟩
    | scanFree i hpci hi hli =>
      exact absurd (hlb i hi) (by rw [hli]; exact Bool.false_ne_true)
    | scanEnd i hpci hi =>
      refine ⟨hlb, ?_⟩
      dsimp
      by_cases hut : t = u
      · exact ⟨0, Or.inr (by rw [if_pos hut])⟩
      · obtain ⟨j, hj⟩ := hpcb
        exact ⟨j, by rwa [if_neg hut]⟩
    | release i hpci =>
      exact absurd hpci (hnohold i)

/-- `C9`: checkout of a core group is strictly mutually exclusive.  First,
in every state reachable from an initial state by interleaved scan steps,
two threads holding the same group's guard are the same thread — so any
number of concurrently successful checkouts hold pairwise distinct groups
(with N groups, at most N concurrent holders).  Second, while every
group's lock is held and the non-holding threads take any steps, a thread
running a further checkout attempt can never come to hold a guard: its
scan only advances or ends with `none`. -/
theorem checkout_mutual_exclusion :
    (∀ s0 s, initialPool s0 → ReachablePool s0 s →
      ∀ t u i, s.pc t = ThreadPc.holding i → s.pc u = ThreadPc.holding i →
        t = u) ∧
    (∀ s s' t i, allLocked s → s.pc t = ThreadPc.scanning i →
      Relation.ReflTransGen HoldStep s s' →
      ∀ j, s'.pc t ≠ ThreadPc.holding j) := by
  constructor
  · intro s0 s h0 hr t u i ht hu
    exact (poolInv_reachable s0 s h0 hr).2 t u i ht hu
  · intro s s' t i hl hpc hsteps j hj
    obtain ⟨-, k, hk⟩ := holdStep_blocked t s s' hl ⟨i, Or.inl hpc⟩ hsteps
    cases hk with
    | inl h => rw [hj] at h; cases h
    | inr h => rw [hj] at h; cases h

/-- A one-group pool with two threads about to scan. -/
def w9s0 : PoolSys := ⟨1, fun _ => false, fun _ => ThreadPc.scanning 0⟩

/-- `w9s0` after thread 0 takes group 0 by a `scanFree` step. -/
def w9s1 : PoolSys := ⟨1, fun m => if m = 0 then true else w9s0.locked m,
  fun u => if u = 0 then ThreadPc.holding 0 else w9s0.pc u⟩

/-- A one-group pool in which thread 1 holds the only guard and thread 0
is about to scan: all guards held. -/
def w9all : PoolSys := ⟨1, fun _ => true,
  fun u => if u = 1 then ThreadPc.holding 0 else ThreadPc.scanning 0⟩

/-- Witness for `C9` on concrete one-group systems: in `w9s1`, reached
from the initial `w9s0` by one step, the holder of group 0 is unique; in
`w9all`, where the only guard is held, thread 0's attempt never holds. -/
theorem checkout_mutual_exclusion_witness :
    (0 : Nat) = 0 ∧ (∀ j, w9all.pc 0 ≠ ThreadPc.holding j) :=
  ⟨checkout_mutual_exclusion.1 w9s0 w9s1 ⟨fun _ => rfl, fun _ => rfl⟩
      (Relation.ReflTransGen.single ⟨0, Step.scanFree w9s0 0 rfl Nat.one_pos rfl⟩)
      0 0 0 rfl rfl,
    checkout_mutual_exclusion.2 w9all w9all 0 0 (fun _ _ => rfl) rfl
      Relation.ReflTransGen.refl⟩

end Cores
